import Mathlib

/-!
Verification of `neuronx_distributed_inference/modules/generation/sampling.py`.

The module is embedded shallowly over exact rational arithmetic:

* a tensor whose leading dimension is the batch and whose trailing dimension is
  the vocabulary is a `List (List ℚ)`;
* `torch.nn.functional.softmax` divides the exponential of each entry by the row
  sum of exponentials; the transcendental exponential is an external numeric
  primitive, so the embedding takes it as a parameter `ex : ℚ → ℚ` and every
  theorem quantifies over it (witnesses instantiate it with a concrete map);
* the device random generator behind `rand_like` is modelled as an explicit
  stream `rand : ℕ → ℚ` supplying one uniform value per batch row, so that
  independence from randomness is a provable equality;
* the distributed collectives `nxd_argmax` / `nxd_topk` are, by the stated
  contract, semantically the global argmax / top-k along the gather axis, so a
  single local definition models both the `on_cpu` and the device variant;
* the failing `assert` in `prepare_sampling_params` becomes an `Except.error`.
-/

namespace NxDISampling

/-- The large negative sentinel `Sampler.IGNORED_LOGITS_VALUE = -3000` used to
hide candidates: after softmax it maps to (approximately) zero probability. -/
def IGNORED_LOGITS_VALUE : ℚ := -3000

/-- The construction-time configuration a `Sampler` instance carries:
`do_sample`, `dynamic`, `deterministic`, `global_topk` from the on-device
sampling config, the optional `is_medusa` flag (default false), and the
`on_cpu` execution flag of the hosting `NeuronConfig`. -/
structure Sampler where
  do_sample : Bool
  dynamic : Bool
  deterministic : Bool
  global_topk : Nat
  is_medusa : Bool
  on_cpu : Bool
deriving DecidableEq

/-- An argument of `prepare_sampling_params`: a scalar or an (already 1-D)
list/tensor of numeric values, as accepted by `prepare_tensor`. -/
inductive ParamVal where
  | scalar (v : ℚ)
  | tensor1d (vs : List ℚ)
deriving DecidableEq

/-- `prepare_tensor`: wraps a non-tensor, non-list value into a singleton list
and leaves a list/tensor unchanged, yielding a 1-D sequence. -/
def prepare_tensor : ParamVal → List ℚ
  | .scalar v => [v]
  | .tensor1d vs => vs

/-- `prepare_sampling_params(batch_size, top_k, top_p, temperature)`: coerces
the three arguments to 1-D sequences, asserts the three lengths are equal
(the failing assert is the ShapeMismatch error), broadcasts to `batch_size`
rows when the common length is 1, and stacks the columns in the order
`[top_k, top_p, temperature]` (a row is the triple `(top_k, top_p, temp)`). -/
def prepare_sampling_params (batch_size : Nat) (top_k top_p temperature : ParamVal) :
    Except String (List (ℚ × ℚ × ℚ)) :=
  let k := prepare_tensor top_k
  let p := prepare_tensor top_p
  let t := prepare_tensor temperature
  if k.length = p.length ∧ p.length = t.length then
    if k.length = 1 then
      Except.ok (List.replicate batch_size (k.headD 0, p.headD 0, t.headD 0))
    else
      Except.ok (k.zip (p.zip t))
  else
    Except.error "sampling params shapes do not match"

/-- The `top_k` column of a prepared `(batch, 3)` parameter tensor. -/
def topKs (params : List (ℚ × ℚ × ℚ)) : List ℚ := params.map (fun r => r.1)

/-- The `top_p` column of a prepared `(batch, 3)` parameter tensor. -/
def topPs (params : List (ℚ × ℚ × ℚ)) : List ℚ := params.map (fun r => r.2.1)

/-- The `temperature` column of a prepared `(batch, 3)` parameter tensor. -/
def temperatures (params : List (ℚ × ℚ × ℚ)) : List ℚ := params.map (fun r => r.2.2)

/-- Pairs each row entry with its vocabulary index, starting at `i`. -/
def enumValsGo (i : Nat) : List ℚ → List (ℚ × Nat)
  | [] => []
  | v :: rest => (v, i) :: enumValsGo (i + 1) rest

/-- Pairs each row entry with its vocabulary index (index 0 first). -/
def enumVals (row : List ℚ) : List (ℚ × Nat) := enumValsGo 0 row

/-- Stable insertion for descending sort of (value, index) pairs: an element
is placed before the first strictly-smaller-or-equal ... — precisely, before
the first entry its value is `≥`, so earlier entries win ties, matching a
stable `torch.sort(descending=True)`. -/
def insertDesc (p : ℚ × Nat) : List (ℚ × Nat) → List (ℚ × Nat)
  | [] => [p]
  | q :: rest => if p.1 ≥ q.1 then p :: q :: rest else q :: insertDesc p rest

/-- Descending sort of (value, index) pairs, modelling
`torch.sort(input=logits, dim=dim, descending=True)`: returns the values in
descending order together with the original vocabulary indices. -/
def sortDesc : List (ℚ × Nat) → List (ℚ × Nat)
  | [] => []
  | a :: rest => insertDesc a (sortDesc rest)

/-- The per-row (value, index) pairs produced inside `Sampler._top_k_masked`:
`torch.topk` / `nxd_topk` with `k = global_topk` when `global_topk > 0`
(the `k` largest entries in descending order), otherwise the full descending
sort. -/
def sortedPairs (s : Sampler) (row : List ℚ) : List (ℚ × Nat) :=
  if 0 < s.global_topk then (sortDesc (enumVals row)).take s.global_topk
  else sortDesc (enumVals row)

/-- The arange/greater_equal/masked_fill step of `Sampler._top_k_masked` on one
row: position `j` (as a float) is compared with the row's `top_k`, and
positions with `j ≥ top_k` are overwritten with the sentinel. -/
def maskTopKGo (k : ℚ) (j : Nat) : List ℚ → List ℚ
  | [] => []
  | v :: rest => (if (j : ℚ) ≥ k then IGNORED_LOGITS_VALUE else v) :: maskTopKGo k (j + 1) rest

/-- `Sampler._top_k_masked` masking of one sorted row by that row's `top_k`. -/
def maskTopKRow (vals : List ℚ) (k : ℚ) : List ℚ := maskTopKGo k 0 vals

/-- `Sampler._top_k_masked(logits, top_k, dim)`: sorts (or top-k reduces) each
row descending, masks positions `≥ top_k[i]` with the sentinel, and returns
(masked sorted values, original vocabulary indices). -/
def top_k_masked (s : Sampler) (logits : List (List ℚ)) (top_k : List ℚ) :
    List (List ℚ) × List (List Nat) :=
  let pairs := logits.map (sortedPairs s)
  (List.zipWith (fun pr k => maskTopKRow (pr.map Prod.fst) k) pairs top_k,
   pairs.map (List.map Prod.snd))

/-- `softmax` on one row: each exponential divided by the sum of the row's
exponentials, with the exponential function `ex` supplied as a parameter. -/
def softmaxRow (ex : ℚ → ℚ) (row : List ℚ) : List ℚ :=
  let exps := row.map ex
  exps.map (fun v => v / exps.sum)

/-- `Sampler._soft_max(logits, dim)` along the trailing (vocabulary) axis. -/
def soft_max (ex : ℚ → ℚ) (t : List (List ℚ)) : List (List ℚ) :=
  t.map (softmaxRow ex)

/-- Running sums with accumulator `acc`, the helper behind `torch.cumsum`. -/
def cumsumFrom (acc : ℚ) : List ℚ → List ℚ
  | [] => []
  | v :: rest => (acc + v) :: cumsumFrom (acc + v) rest

/-- `torch.cumsum` on one row: entry `i` is the sum of entries `0..i`. -/
def cumsumRow (row : List ℚ) : List ℚ := cumsumFrom 0 row

/-- `torch.cumsum(input, dim)` along the trailing axis. -/
def cumsum (t : List (List ℚ)) : List (List ℚ) := t.map cumsumRow

/-- `torch.min(tensor)` with no dimension argument: the single global minimum
over every entry of the tensor (0 on an empty tensor). -/
def tensorMin (t : List (List ℚ)) : ℚ :=
  match t.flatten with
  | [] => 0
  | v :: rest => rest.foldl min v

/-- The per-row thresholds `top_p = torch.max(torch.min(probs_cumsum), top_p)`
of the top-p block of `Sampler.forward`: each row's `top_p` is clamped from
below by the single global minimum of the whole cumulative tensor. -/
def clampedTopP (ex : ℚ → ℚ) (vals : List (List ℚ)) (top_p : List ℚ) : List ℚ :=
  top_p.map (fun p => max (tensorMin (cumsum (soft_max ex vals))) p)

/-- The row mask `torch.greater(probs_cumsum, top_p).index_fill_(dim, [0], False)`:
positions whose cumulative probability exceeds the threshold, except that
position 0 is overwritten with `False` ("need to keep at least one token"). -/
def topPMaskRow (pcRow : List ℚ) (p : ℚ) : List Bool :=
  match pcRow with
  | [] => []
  | _ :: rest => false :: rest.map (fun c => decide (c > p))

/-- `masked_fill_` of one row: masked positions receive the sentinel. -/
def maskedFillRow (vals : List ℚ) (mask : List Bool) : List ℚ :=
  List.zipWith (fun v b => if b then IGNORED_LOGITS_VALUE else v) vals mask

/-- The top-p block of `Sampler.forward`: softmax, cumulative sum, clamp of the
per-row threshold by the global minimum, mask with position 0 exempt, and
sentinel fill of the masked positions. -/
def topPStep (ex : ℚ → ℚ) (vals : List (List ℚ)) (top_p : List ℚ) : List (List ℚ) :=
  let probs_cumsum := cumsum (soft_max ex vals)
  List.zipWith (fun vp p => maskedFillRow vp.1 (topPMaskRow vp.2 p))
    (vals.zip probs_cumsum) (clampedTopP ex vals top_p)

/-- `torch.divide(top_k_logits_values, temperature)` with the `(batch, 1)`
temperature column broadcast along each row. -/
def divideRows (t : List (List ℚ)) (temps : List ℚ) : List (List ℚ) :=
  List.zipWith (fun row tp => row.map (fun v => v / tp)) t temps

/-- `Sampler._rand_selector`: the uniform value for row `i`, which is the fixed
constant 1/2 when `deterministic` and the device random stream otherwise. -/
def rand_selector (s : Sampler) (rand : Nat → ℚ) : Nat → ℚ :=
  fun i => if s.deterministic then 1/2 else rand i

/-- One row of `Sampler._multinomial`: `torch.sum(torch.greater(r, pc))`, the
number of cumulative entries the draw value `r` strictly exceeds. -/
def greaterCountRow (r : ℚ) (pcRow : List ℚ) : Nat :=
  (pcRow.map (fun c => decide (r > c))).count true

/-- Row-indexed traversal for `Sampler._multinomial`. -/
def multinomialGo (s : Sampler) (rand : Nat → ℚ) (i : Nat) : List (List ℚ) → List Nat
  | [] => []
  | row :: rest =>
      greaterCountRow (rand_selector s rand i) (cumsumRow row) :: multinomialGo s rand (i + 1) rest

/-- `Sampler._multinomial(probs, dim)`: cumulative sums per row, one draw value
per row from `_rand_selector`, and the per-row count of cumulative entries the
draw exceeds (the `(batch, 1)` counts tensor, one entry per row). -/
def multinomial (s : Sampler) (rand : Nat → ℚ) (probs : List (List ℚ)) : List Nat :=
  multinomialGo s rand 0 probs

/-- `torch.gather(input=indices, dim, index=counts).flatten()`: per row, the
entry of the sorted-index row at the counted position, flattened to 1-D. -/
def gatherFlatten (idx : List (List Nat)) (counts : List Nat) : List Nat :=
  List.zipWith (fun row c => row.getD c 0) idx counts

/-- Scan for the index of the first maximal entry (`i` is the index of the next
element, `bi`/`bv` the best index and value so far). -/
def argmaxGo (i bi : Nat) (bv : ℚ) : List ℚ → Nat
  | [] => bi
  | v :: rest => if v > bv then argmaxGo (i + 1) i v rest else argmaxGo (i + 1) bi bv rest

/-- Arg-max of one row: the vocabulary index of its (first) maximal entry. -/
def argmaxRow : List ℚ → Nat
  | [] => 0
  | v :: rest => argmaxGo 1 0 v rest

/-- `torch.argmax(token_logits, dim)` along the trailing axis; by the stated
collective contract this is also the result of the distributed `nxd_argmax`. -/
def argmax (t : List (List ℚ)) : List Nat := t.map argmaxRow

/-- The guard of the greedy fast path of `Sampler.forward`:
`(not do_sample) or (not dynamic and torch.all(top_k <= 1))`. -/
def greedyCond (s : Sampler) (top_k : List ℚ) : Bool :=
  !s.do_sample || (!s.dynamic && top_k.all (fun k => decide (k ≤ 1)))

/-- The value `Sampler.forward` returns: a flattened 1-D vector of token ids, a
(token ids, values) pair from the device greedy path with `return_values`, the
`(batch, k)` candidate-index tensor of the medusa branch, or the
(sorted indices, softmax probabilities) pair of the `return_values` branch. -/
inductive SampleOut where
  | tokens (ids : List Nat)
  | tokensWithValues (ids : List Nat) (values : List ℚ)
  | candidateIndices (idx : List (List Nat))
  | indicesWithProbs (idx : List (List Nat)) (probs : List (List ℚ))
deriving DecidableEq

/-- The token-id vector of a `SampleOut`, when the output carries one. -/
def outTokens : SampleOut → Option (List Nat)
  | .tokens ids => some ids
  | .tokensWithValues ids _ => some ids
  | _ => none

/-- Whether a `SampleOut` pairs its token ids with per-token values. -/
def pairsWithValues : SampleOut → Bool
  | .tokensWithValues _ _ => true
  | _ => false

/-- The value tensor fed to the final softmax of `Sampler.forward` on the
sampling path: sorted-and-masked top-k values, divided by temperature when
`dynamic` or some temperature differs from 1, then top-p masked when `dynamic`
or some `top_p` is below 1. -/
def pipelineVals (s : Sampler) (ex : ℚ → ℚ) (logits : List (List ℚ))
    (top_k top_p temperature : List ℚ) : List (List ℚ) :=
  let tkv := (top_k_masked s logits top_k).1
  let v1 := if s.dynamic || temperature.any (fun t => decide (t ≠ 1)) then
      divideRows tkv temperature else tkv
  if s.dynamic || top_p.any (fun p => decide (p < 1)) then topPStep ex v1 top_p else v1

/-- `Sampler.forward(token_logits, sampling_params, return_values)`: the greedy
fast path (local argmax on CPU; distributed argmax, with all-ones values when
`return_values`, on device), else top-k masking, the medusa short-circuit, the
temperature / top-p / softmax pipeline, the `return_values` branch, and finally
the pseudo-multinomial draw gathered through the sorted indices. -/
def forward (s : Sampler) (ex : ℚ → ℚ) (rand : Nat → ℚ)
    (token_logits : List (List ℚ)) (sampling_params : List (ℚ × ℚ × ℚ))
    (return_values : Bool) : SampleOut :=
  let top_k := topKs sampling_params
  let top_p := topPs sampling_params
  let temperature := temperatures sampling_params
  if greedyCond s top_k then
    if s.on_cpu then
      .tokens (argmax token_logits)
    else
      let tokens := argmax token_logits
      if return_values then .tokensWithValues tokens (tokens.map (fun _ => (1 : ℚ)))
      else .tokens tokens
  else
    let tk := top_k_masked s token_logits top_k
    if s.is_medusa then .candidateIndices tk.2
    else
      let probs_soft_max := soft_max ex (pipelineVals s ex token_logits top_k top_p temperature)
      if return_values then .indicesWithProbs tk.2 probs_soft_max
      else .tokens (gatherFlatten tk.2 (multinomial s rand probs_soft_max))

deriving instance DecidableEq for Except

/-- The sorted-index tensor `top_k_logits_indices` a call of `Sampler.forward`
computes from its logits and the `top_k` column of its parameters. -/
def sortedIndices (s : Sampler) (logits : List (List ℚ)) (params : List (ℚ × ℚ × ℚ)) :
    List (List Nat) :=
  (top_k_masked s logits (topKs params)).2

/-- The final `probs_soft_max` tensor of the sampling path of `Sampler.forward`:
the softmax of the top-k-masked, temperature-scaled, top-p-masked values. -/
def finalProbs (s : Sampler) (ex : ℚ → ℚ) (logits : List (List ℚ))
    (params : List (ℚ × ℚ × ℚ)) : List (List ℚ) :=
  soft_max ex (pipelineVals s ex logits (topKs params) (topPs params) (temperatures params))

/-! ### Supporting lemmas -/

theorem length_enumValsGo (l : List ℚ) : ∀ i, (enumValsGo i l).length = l.length := by
  induction l with
  | nil => intro i; rfl
  | cons v rest ih => intro i; simp [enumValsGo, ih]

theorem length_enumVals (row : List ℚ) : (enumVals row).length = row.length :=
  length_enumValsGo row 0

theorem length_insertDesc (p : ℚ × Nat) (l : List (ℚ × Nat)) :
    (insertDesc p l).length = l.length + 1 := by
  induction l with
  | nil => rfl
  | cons q rest ih => by_cases h : p.1 ≥ q.1 <;> simp [insertDesc, h, ih]

theorem length_sortDesc (l : List (ℚ × Nat)) : (sortDesc l).length = l.length := by
  induction l with
  | nil => rfl
  | cons a rest ih => simp [sortDesc, length_insertDesc, ih]

theorem length_sortedPairs (s : Sampler) (row : List ℚ) :
    (sortedPairs s row).length =
      if 0 < s.global_topk then min s.global_topk row.length else row.length := by
  by_cases h : 0 < s.global_topk <;>
    simp [sortedPairs, h, length_sortDesc, length_enumVals]

theorem length_maskTopKGo (k : ℚ) (l : List ℚ) : ∀ j, (maskTopKGo k j l).length = l.length := by
  induction l with
  | nil => intro j; rfl
  | cons v rest ih => intro j; simp [maskTopKGo, ih]

theorem length_cumsumFrom (l : List ℚ) : ∀ acc, (cumsumFrom acc l).length = l.length := by
  induction l with
  | nil => intro acc; rfl
  | cons v rest ih => intro acc; simp [cumsumFrom, ih]

theorem length_cumsumRow (l : List ℚ) : (cumsumRow l).length = l.length :=
  length_cumsumFrom l 0

theorem length_softmaxRow (ex : ℚ → ℚ) (row : List ℚ) :
    (softmaxRow ex row).length = row.length := by
  simp [softmaxRow]

theorem sum_mem_cumsumFrom (l : List ℚ) (h : l ≠ []) :
    ∀ acc, (acc + l.sum) ∈ cumsumFrom acc l := by
  induction l with
  | nil => exact absurd rfl h
  | cons v rest ih =>
      intro acc
      rcases rest with _ | ⟨w, t⟩
      · simp [cumsumFrom]
      · have := ih (by simp) (acc + v)
        simpa [cumsumFrom, add_assoc] using Or.inr this

theorem sum_mem_cumsumRow (l : List ℚ) (h : l ≠ []) : l.sum ∈ cumsumRow l := by
  simpa using sum_mem_cumsumFrom l h 0

theorem greaterCountRow_eq_countP (r : ℚ) (pc : List ℚ) :
    greaterCountRow r pc = pc.countP (fun c => decide (c < r)) := by
  induction pc with
  | nil => rfl
  | cons c rest ih =>
      by_cases h : c < r <;>
        simp [greaterCountRow, List.count_cons, List.countP_cons, h, gt_iff_lt] at ih ⊢ <;>
        omega

theorem get_zipWith {α β γ : Type} (f : α → β → γ) :
    ∀ (l₁ : List α) (l₂ : List β) (i : Nat) (a : α) (b : β),
      l₁.get? i = some a → l₂.get? i = some b → (List.zipWith f l₁ l₂).get? i = some (f a b) := by
  intro l₁
  induction l₁ with
  | nil => intro l₂ i a b h; simp at h
  | cons x xs ih =>
      intro l₂ i a b h₁ h₂
      rcases l₂ with _ | ⟨y, ys⟩
      · simp at h₂
      · rcases i with _ | j
        · simp at h₁ h₂; simp [h₁, h₂]
        · simpa using ih ys j a b (by simpa using h₁) (by simpa using h₂)

theorem multinomialGo_get (s : Sampler) (rand : Nat → ℚ) :
    ∀ (probs : List (List ℚ)) (i j : Nat),
      (multinomialGo s rand i probs).get? j = (probs.get? j).map
        (fun row => greaterCountRow (rand_selector s rand (i + j)) (cumsumRow row)) := by
  intro probs
  induction probs with
  | nil => intro i j; simp [multinomialGo]
  | cons row rest ih =>
      intro i j
      rcases j with _ | j
      · simp [multinomialGo]
      · have := ih (i + 1) j
        simp only [multinomialGo, List.get?_cons_succ, this]
        have harith : i + 1 + j = i + (j + 1) := by omega
        rw [harith]

theorem multinomial_get (s : Sampler) (rand : Nat → ℚ) (probs : List (List ℚ)) (i : Nat) :
    (multinomial s rand probs).get? i = (probs.get? i).map
      (fun row => greaterCountRow (rand_selector s rand i) (cumsumRow row)) := by
  simpa using multinomialGo_get s rand probs 0 i

theorem length_multinomialGo (s : Sampler) (rand : Nat → ℚ) :
    ∀ (probs : List (List ℚ)) (i : Nat), (multinomialGo s rand i probs).length = probs.length := by
  intro probs
  induction probs with
  | nil => intro i; rfl
  | cons row rest ih => intro i; simp [multinomialGo, ih]

theorem length_multinomial (s : Sampler) (rand : Nat → ℚ) (probs : List (List ℚ)) :
    (multinomial s rand probs).length = probs.length :=
  length_multinomialGo s rand probs 0

theorem length_top_k_masked_fst (s : Sampler) (logits : List (List ℚ)) (tk : List ℚ) :
    (top_k_masked s logits tk).1.length = min logits.length tk.length := by
  simp [top_k_masked]

theorem length_top_k_masked_snd (s : Sampler) (logits : List (List ℚ)) (tk : List ℚ) :
    (top_k_masked s logits tk).2.length = logits.length := by
  simp [top_k_masked]

theorem length_soft_max (ex : ℚ → ℚ) (t : List (List ℚ)) :
    (soft_max ex t).length = t.length := by
  simp [soft_max]

theorem length_cumsum (t : List (List ℚ)) : (cumsum t).length = t.length := by
  simp [cumsum]

theorem length_divideRows (t : List (List ℚ)) (temps : List ℚ) :
    (divideRows t temps).length = min t.length temps.length := by
  simp [divideRows]

theorem length_clampedTopP (ex : ℚ → ℚ) (vals : List (List ℚ)) (tp : List ℚ) :
    (clampedTopP ex vals tp).length = tp.length := by
  simp [clampedTopP]

theorem length_topPStep (ex : ℚ → ℚ) (vals : List (List ℚ)) (tp : List ℚ) :
    (topPStep ex vals tp).length = min vals.length tp.length := by
  simp [topPStep, length_clampedTopP, length_cumsum, length_soft_max]

theorem length_topKs (params : List (ℚ × ℚ × ℚ)) : (topKs params).length = params.length := by
  simp [topKs]

theorem length_topPs (params : List (ℚ × ℚ × ℚ)) : (topPs params).length = params.length := by
  simp [topPs]

theorem length_temperatures (params : List (ℚ × ℚ × ℚ)) :
    (temperatures params).length = params.length := by
  simp [temperatures]

theorem length_pipelineVals (s : Sampler) (ex : ℚ → ℚ) (logits : List (List ℚ))
    (top_k top_p temperature : List ℚ)
    (hk : top_k.length = logits.length) (hp : top_p.length = logits.length)
    (ht : temperature.length = logits.length) :
    (pipelineVals s ex logits top_k top_p temperature).length = logits.length := by
  simp only [pipelineVals]
  split
  · rw [length_topPStep]
    split
    · rw [length_divideRows, length_top_k_masked_fst, hk, ht, hp]; omega
    · rw [length_top_k_masked_fst, hk, hp]; omega
  · split
    · rw [length_divideRows, length_top_k_masked_fst, hk, ht]; omega
    · rw [length_top_k_masked_fst, hk]; omega

theorem greedyCond_iff (s : Sampler) (top_k : List ℚ) :
    greedyCond s top_k = true ↔
      s.do_sample = false ∨ (s.dynamic = false ∧ ∀ k ∈ top_k, k ≤ 1) := by
  simp [greedyCond, List.all_eq_true, Bool.not_eq_true']

theorem maskedFill_topP_cons (a c : ℚ) (v2 pc2 : List ℚ) (p : ℚ) :
    maskedFillRow (a :: v2) (topPMaskRow (c :: pc2) p) =
      a :: maskedFillRow v2 (pc2.map (fun x => decide (x > p))) := by
  simp [maskedFillRow, topPMaskRow]

theorem topP_rows_head (pcf : List ℚ → List ℚ) (hlen : ∀ r, (pcf r).length = r.length) :
    ∀ (rows : List (List ℚ)) (tps : List ℚ),
      ∀ pr ∈ rows.zip (List.zipWith (fun vp p => maskedFillRow vp.1 (topPMaskRow vp.2 p))
          (rows.zip (rows.map pcf)) tps),
        pr.2.headD 0 = pr.1.headD 0 ∧
        (pr.1 ≠ [] → pr.1.headD 0 ≠ IGNORED_LOGITS_VALUE →
          ∃ v ∈ pr.2, v ≠ IGNORED_LOGITS_VALUE) := by
  intro rows
  induction rows with
  | nil => intro tps pr h; simp at h
  | cons r rs ih =>
      intro tps pr h
      rcases tps with _ | ⟨q, qs⟩
      · simp at h
      · simp only [List.map_cons, List.zip_cons_cons, List.zipWith_cons_cons,
          List.mem_cons] at h
        rcases h with h | h
        · subst h
          rcases hr : r with _ | ⟨a, r2⟩
          · constructor
            · simp [maskedFillRow]
            · intro hne; exact absurd rfl hne
          · have hp : pcf (a :: r2) ≠ [] := by
              intro hnil
              have := hlen (a :: r2)
              rw [hnil] at this
              simp at this
            rcases hpc : pcf (a :: r2) with _ | ⟨c, pc2⟩
            · exact absurd hpc hp
            · rw [maskedFill_topP_cons]
              refine ⟨by simp, fun _ hne => ⟨a, by simp, ?_⟩⟩
              simpa using hne
        · exact ih qs pr h

theorem topPStep_as_zipWith (ex : ℚ → ℚ) (vals : List (List ℚ)) (top_p : List ℚ) :
    topPStep ex vals top_p =
      List.zipWith (fun vp p => maskedFillRow vp.1 (topPMaskRow vp.2 p))
        (vals.zip (vals.map (fun r => cumsumRow (softmaxRow ex r)))) (clampedTopP ex vals top_p) := by
  simp only [topPStep, cumsum, soft_max, List.map_map]
  rfl

/-! ### Claim theorems -/

/-- Claim C1: the greedy fast path of `Sampler.forward` is taken exactly when
`do_sample` is false, or `dynamic` is false and every row's `top_k` is at most
1; on that path each batch row's result is the arg-max token id of that row's
logits along the vocabulary axis, and the result is unchanged under any
`top_p`/`temperature` columns, any softmax exponential and any random stream
(no random draw is made). -/
theorem greedy_fast_path_argmax (s : Sampler) (ex : ℚ → ℚ) (rand : Nat → ℚ)
    (logits : List (List ℚ)) (params : List (ℚ × ℚ × ℚ)) (rv : Bool) :
    (greedyCond s (topKs params) = true ↔
      s.do_sample = false ∨ (s.dynamic = false ∧ ∀ k ∈ topKs params, k ≤ 1)) ∧
    (greedyCond s (topKs params) = true →
      outTokens (forward s ex rand logits params rv) = some (argmax logits) ∧
      ∀ (ex2 : ℚ → ℚ) (rand2 : Nat → ℚ) (params2 : List (ℚ × ℚ × ℚ)),
        topKs params2 = topKs params →
        forward s ex2 rand2 logits params2 rv = forward s ex rand logits params rv) := by
  refine ⟨greedyCond_iff s (topKs params), fun hc => ⟨?_, ?_⟩⟩
  · by_cases hcpu : s.on_cpu <;> by_cases hrv : rv <;>
      simp [forward, hc, hcpu, hrv, outTokens]
  · intro ex2 rand2 params2 hk2
    by_cases hcpu : s.on_cpu <;> by_cases hrv : rv <;>
      simp [forward, hk2, hc, hcpu, hrv]

/-- Claim C2 counterexample: with batch size 4 and three coerced sequences of
equal length 2 — a common length that is neither 1 nor the batch size —
`prepare_sampling_params` returns normally (with a 2-row result) instead of
failing with the ShapeMismatch error the claim requires. -/
theorem prepare_params_off_batch_returns_ok :
    prepare_sampling_params 4 (ParamVal.tensor1d [1, 2]) (ParamVal.tensor1d [1, 1])
        (ParamVal.tensor1d [9, 9]) = Except.ok [(1, 1, 9), (2, 1, 9)] ∧
    (prepare_tensor (ParamVal.tensor1d [(1 : ℚ), 2])).length = 2 ∧
    (2 : Nat) ≠ 1 ∧ (2 : Nat) ≠ 4 := by
  decide

/-- Claim C2 amended: `prepare_sampling_params` fails (with the ShapeMismatch
assert message) exactly when the three coerced 1-D sequences have unequal
lengths; whenever the lengths agree it returns normally, broadcasting to the
batch size only when the common length is 1 — a common length different from
both 1 and `batch_size` is returned as-is, not rejected. -/
theorem prepare_params_ok_iff_lengths_eq (B : Nat) (kv pv tv : ParamVal) :
    ((prepare_sampling_params B kv pv tv).isOk = true ↔
      ((prepare_tensor kv).length = (prepare_tensor pv).length ∧
       (prepare_tensor pv).length = (prepare_tensor tv).length)) ∧
    (¬((prepare_tensor kv).length = (prepare_tensor pv).length ∧
       (prepare_tensor pv).length = (prepare_tensor tv).length) →
      prepare_sampling_params B kv pv tv =
        Except.error "sampling params shapes do not match") := by
  constructor
  · simp only [prepare_sampling_params]
    split_ifs with h h1 <;> simp [Except.isOk, Except.toBool, h]
  · intro h
    simp only [prepare_sampling_params]
    rw [if_neg h]

/-- Claim C3 counterexample: on the CPU greedy path with `return_values`
requested, `Sampler.forward` returns the bare token-id vector — the result
does not pair the selected ids with any probability values at all. -/
theorem greedy_cpu_return_values_unpaired :
    forward ⟨false, false, true, 0, false, true⟩ (fun _ => 1) (fun _ => 0)
        [[1, 2]] [(1, 1, 1)] true = SampleOut.tokens [1] ∧
    pairsWithValues (forward ⟨false, false, true, 0, false, true⟩ (fun _ => 1) (fun _ => 0)
        [[1, 2]] [(1, 1, 1)] true) = false := by
  decide

/-- Claim C3 amended: on the greedy fast path with `return_values` requested
and execution not on CPU, the result pairs the arg-max token ids with a value
vector of the same length every entry of which is exactly 1. (On CPU the
greedy path returns the bare ids even when `return_values` is requested.) -/
theorem greedy_device_return_values_prob_one (s : Sampler) (ex : ℚ → ℚ) (rand : Nat → ℚ)
    (logits : List (List ℚ)) (params : List (ℚ × ℚ × ℚ))
    (hcpu : s.on_cpu = false)
    (h : s.do_sample = false ∨ (s.dynamic = false ∧ ∀ k ∈ topKs params, k ≤ 1)) :
    ∃ vals, forward s ex rand logits params true =
        SampleOut.tokensWithValues (argmax logits) vals ∧
      vals.length = (argmax logits).length ∧ ∀ v ∈ vals, v = 1 := by
  have hc : greedyCond s (topKs params) = true := (greedyCond_iff s (topKs params)).mpr h
  refine ⟨(argmax logits).map (fun _ => (1 : ℚ)), ?_, by simp, ?_⟩
  · simp [forward, hc, hcpu]
  · intro v hv
    rcases List.mem_map.mp hv with ⟨_, _, hveq⟩
    exact hveq.symm

/-- Witness for the amended C3: a concrete device greedy call with
`return_values` produces the (ids, all-ones values) pair. -/
theorem greedy_device_return_values_prob_one_witness :
    forward ⟨false, false, true, 0, false, false⟩ (fun _ => 1) (fun _ => 0)
        [[1, 5, 3]] [(1, 1, 1)] true = SampleOut.tokensWithValues [1] [1] := by
  obtain ⟨vals, h1, h2, h3⟩ := greedy_device_return_values_prob_one
    ⟨false, false, true, 0, false, false⟩ (fun _ => 1) (fun _ => 0)
    [[1, 5, 3]] [(1, 1, 1)] rfl (Or.inl rfl)
  have hax : argmax [[1, 5, 3]] = [1] := by decide
  rcases vals with _ | ⟨v, rest⟩
  · rw [hax] at h2; simp at h2
  · rcases rest with _ | ⟨w, r2⟩
    · rw [hax] at h1
      rw [h3 v (by simp)] at h1
      exact h1
    · rw [hax] at h2; simp at h2

/-- Claim C4: in the top-p masking step, the first (highest-probability)
position of every row is exempt from the mask: the output row's head equals
the input row's head for every threshold (in particular for a `top_p` smaller
than the top token's probability), so a row whose top entry was not already
the sentinel retains at least one non-sentinel candidate. -/
theorem topP_first_position_unmasked (ex : ℚ → ℚ) (vals : List (List ℚ)) (top_p : List ℚ) :
    ∀ pr ∈ vals.zip (topPStep ex vals top_p),
      pr.2.headD 0 = pr.1.headD 0 ∧
      (pr.1 ≠ [] → pr.1.headD 0 ≠ IGNORED_LOGITS_VALUE →
        ∃ v ∈ pr.2, v ≠ IGNORED_LOGITS_VALUE) := by
  intro pr h
  rw [topPStep_as_zipWith] at h
  exact topP_rows_head (fun r => cumsumRow (softmaxRow ex r))
    (fun r => by rw [length_cumsumRow, length_softmaxRow]) vals
    (clampedTopP ex vals top_p) pr h

/-- Claim C5: on the sampling path (not greedy, not medusa, not
`return_values`), `Sampler.forward` returns exactly one token id per batch
row as a flattened 1-D vector of length B: row `i`'s count is the number of
entries of the row's cumulative final-probability vector strictly below that
row's draw value, and that count indexes the row of the sorted-index tensor. -/
theorem sampling_path_count_gather (s : Sampler) (ex : ℚ → ℚ) (rand : Nat → ℚ)
    (logits : List (List ℚ)) (params : List (ℚ × ℚ × ℚ))
    (hg : greedyCond s (topKs params) = false)
    (hm : s.is_medusa = false)
    (hB : params.length = logits.length) :
    forward s ex rand logits params false =
      SampleOut.tokens (gatherFlatten (sortedIndices s logits params)
        (multinomial s rand (finalProbs s ex logits params))) ∧
    (∀ i row, (finalProbs s ex logits params).get? i = some row →
      (multinomial s rand (finalProbs s ex logits params)).get? i =
        some ((cumsumRow row).countP (fun c => decide (c < rand_selector s rand i)))) ∧
    (∀ i row c, (sortedIndices s logits params).get? i = some row →
      (multinomial s rand (finalProbs s ex logits params)).get? i = some c →
      (gatherFlatten (sortedIndices s logits params)
        (multinomial s rand (finalProbs s ex logits params))).get? i = some (row.getD c 0)) ∧
    (gatherFlatten (sortedIndices s logits params)
      (multinomial s rand (finalProbs s ex logits params))).length = logits.length := by
  refine ⟨?_, ?_, ?_, ?_⟩
  · simp [forward, hg, hm, sortedIndices, finalProbs]
  · intro i row hrow
    rw [multinomial_get, hrow]
    simp [greaterCountRow_eq_countP]
  · intro i row c hrow hc
    exact get_zipWith _ _ _ i row c hrow hc
  · rw [gatherFlatten, List.length_zipWith, length_multinomial, sortedIndices,
      length_top_k_masked_snd, finalProbs, length_soft_max, length_pipelineVals]
    · omega
    · rw [length_topKs, hB]
    · rw [length_topPs, hB]
    · rw [length_temperatures, hB]

/-- Claim C6: with `deterministic` set, the draw value is the fixed constant
1/2 for every batch row, and the result of `Sampler.forward` does not depend
on the random stream: two calls with identical logits and parameters (and any
random streams) return identical outputs. -/
theorem deterministic_fixed_draw (s : Sampler) (ex : ℚ → ℚ)
    (logits : List (List ℚ)) (params : List (ℚ × ℚ × ℚ)) (rv : Bool)
    (hdet : s.deterministic = true) :
    (∀ (rand : Nat → ℚ) (i : Nat), rand_selector s rand i = 1/2) ∧
    (∀ (randA randB : Nat → ℚ),
      forward s ex randA logits params rv = forward s ex randB logits params rv) := by
  have hsel : ∀ (rand : Nat → ℚ) (i : Nat), rand_selector s rand i = 1/2 := by
    intro rand i
    simp [rand_selector, hdet]
  refine ⟨hsel, fun randA randB => ?_⟩
  have hmg : ∀ (probs : List (List ℚ)) (i : Nat),
      multinomialGo s randA i probs = multinomialGo s randB i probs := by
    intro probs
    induction probs with
    | nil => intro i; rfl
    | cons row rest ih => intro i; simp [multinomialGo, hsel, ih]
  have hM : multinomial s randA = multinomial s randB := by
    funext probs
    exact hmg probs 0
  simp only [forward, hM]

/-- Claim C7 amended: the per-row `top_p` threshold is clamped from below by
the single global minimum of the whole batch's cumulative tensor
(`torch.min(probs_cumsum)` has no dimension argument), not by that row's own
minimum; consequently for a single-row batch the row's threshold is at least
the row's minimum cumulative value, but across a batch a row's threshold can
stay below every cumulative value of that row. -/
theorem clampedTopP_ge_global_min (ex : ℚ → ℚ) (vals : List (List ℚ)) (top_p : List ℚ) :
    (∀ q ∈ clampedTopP ex vals top_p, tensorMin (cumsum (soft_max ex vals)) ≤ q) ∧
    (∀ r, vals = [r] → ∀ q ∈ clampedTopP ex vals top_p,
      tensorMin [cumsumRow (softmaxRow ex r)] ≤ q) := by
  constructor
  · intro q hq
    rcases List.mem_map.mp hq with ⟨p, _, hpe⟩
    exact hpe ▸ le_max_left _ _
  · intro r hr q hq
    subst hr
    rcases List.mem_map.mp hq with ⟨p, _, hpe⟩
    have hrw : cumsum (soft_max ex [r]) = [cumsumRow (softmaxRow ex r)] := by
      simp [cumsum, soft_max]
    rw [← hrw]
    exact hpe ▸ le_max_left _ _

/-- Claim C8: for singleton parameter inputs, `prepare_sampling_params`
returns `Except.ok` of a `batch_size`-row tensor whose every row is the triple
(top_k, top_p, temperature) in that column order; the function reads but never
mutates its arguments (the embedding is pure by construction, matching the
source, which only builds new tensors via `broadcast_to` and `stack`). -/
theorem prepare_params_singleton_broadcast (B : Nat) (kv pv tv : ParamVal)
    (hk : (prepare_tensor kv).length = 1) (hp : (prepare_tensor pv).length = 1)
    (ht : (prepare_tensor tv).length = 1) :
    prepare_sampling_params B kv pv tv =
      Except.ok (List.replicate B
        ((prepare_tensor kv).headD 0, (prepare_tensor pv).headD 0, (prepare_tensor tv).headD 0)) ∧
    (List.replicate B ((prepare_tensor kv).headD 0, (prepare_tensor pv).headD 0,
        (prepare_tensor tv).headD 0)).length = B ∧
    ∀ row ∈ List.replicate B ((prepare_tensor kv).headD 0, (prepare_tensor pv).headD 0,
        (prepare_tensor tv).headD 0),
      row = ((prepare_tensor kv).headD 0, (prepare_tensor pv).headD 0,
        (prepare_tensor tv).headD 0) := by
  refine ⟨?_, by simp, fun row hrow => List.eq_of_mem_replicate hrow⟩
  simp only [prepare_sampling_params]
  rw [if_pos ⟨by rw [hk, hp], by rw [hp, ht]⟩, if_pos hk]

/-- Claim C9: off the greedy fast path with the medusa/speculative flag set,
`Sampler.forward` returns the sorted candidate-index tensor of the top-k step
directly — shape (B, k_used) with `k_used = global_topk` when positive and
the vocabulary size otherwise, never a flattened id vector — independently of
the `top_p`/`temperature` columns, the softmax exponential, the random stream
and the `return_values` flag (so before temperature, top-p, softmax or any
draw is applied). -/
theorem medusa_returns_sorted_indices (s : Sampler) (ex : ℚ → ℚ) (rand : Nat → ℚ)
    (logits : List (List ℚ)) (params : List (ℚ × ℚ × ℚ)) (rv : Bool) (V : Nat)
    (hg : greedyCond s (topKs params) = false)
    (hm : s.is_medusa = true)
    (hV : ∀ row ∈ logits, row.length = V)
    (hk : 0 < s.global_topk → s.global_topk ≤ V) :
    forward s ex rand logits params rv =
      SampleOut.candidateIndices (sortedIndices s logits params) ∧
    outTokens (forward s ex rand logits params rv) = none ∧
    (sortedIndices s logits params).length = logits.length ∧
    (∀ r ∈ sortedIndices s logits params,
      r.length = if 0 < s.global_topk then s.global_topk else V) ∧
    (∀ (ex2 : ℚ → ℚ) (rand2 : Nat → ℚ) (params2 : List (ℚ × ℚ × ℚ)) (rv2 : Bool),
      topKs params2 = topKs params →
      forward s ex2 rand2 logits params2 rv2 = forward s ex rand logits params rv) := by
  have hfwd : forward s ex rand logits params rv =
      SampleOut.candidateIndices (sortedIndices s logits params) := by
    simp [forward, hg, hm, sortedIndices]
  refine ⟨hfwd, by rw [hfwd]; rfl, ?_, ?_, ?_⟩
  · rw [sortedIndices, length_top_k_masked_snd]
  · intro r hr
    rw [sortedIndices, top_k_masked] at hr
    simp only [List.map_map, List.mem_map] at hr
    rcases hr with ⟨row, hrow, hre⟩
    have hlen : (sortedPairs s row).length = if 0 < s.global_topk then s.global_topk else V := by
      rw [length_sortedPairs, hV row hrow]
      split_ifs with hgk
      · exact Nat.min_eq_left (hk hgk)
      · rfl
    rw [← hre]
    simpa using hlen
  · intro ex2 rand2 params2 rv2 hk2
    have hg2 : greedyCond s (topKs params2) = false := by rw [hk2]; exact hg
    have hfwd2 : forward s ex2 rand2 logits params2 rv2 =
        SampleOut.candidateIndices (top_k_masked s logits (topKs params2)).2 := by
      simp [forward, hg2, hm]
    rw [hfwd, hfwd2, sortedIndices, hk2]

/-- Claim C10: whenever a row's final probabilities sum to at least the draw
value and the draw is strictly positive and strictly below the total (as in
the deterministic case, draw 1/2 with probabilities summing to 1), the
pseudo-multinomial count is strictly less than the candidate-axis length, so
gathering with it from a sorted-index row of the same length is in bounds. -/
theorem multinomial_count_in_bounds (probsRow : List ℚ) (r : ℚ) (idxRow : List Nat)
    (_hsum : r ≤ probsRow.sum) (h2 : 0 < r) (h3 : r < probsRow.sum)
    (hlen : idxRow.length = probsRow.length) :
    greaterCountRow r (cumsumRow probsRow) < probsRow.length ∧
    (idxRow.get? (greaterCountRow r (cumsumRow probsRow))).isSome = true := by
  have hne : probsRow ≠ [] := by
    intro hnil
    rw [hnil] at h3
    simp at h3
    exact absurd (h2.trans h3) (lt_irrefl 0)
  have hmem : probsRow.sum ∈ cumsumRow probsRow := sum_mem_cumsumRow probsRow hne
  have hcount : greaterCountRow r (cumsumRow probsRow) =
      (cumsumRow probsRow).countP (fun c => decide (c < r)) := greaterCountRow_eq_countP r _
  have hlt : greaterCountRow r (cumsumRow probsRow) < probsRow.length := by
    rw [hcount, ← length_cumsumRow probsRow]
    rcases Nat.lt_or_ge ((cumsumRow probsRow).countP (fun c => decide (c < r)))
        (cumsumRow probsRow).length with h | h
    · exact h
    · exfalso
      have heq : (cumsumRow probsRow).countP (fun c => decide (c < r)) =
          (cumsumRow probsRow).length :=
        le_antisymm (List.countP_le_length _) h
      have hall := List.countP_eq_length.mp heq probsRow.sum hmem
      simp only [decide_eq_true_eq] at hall
      exact absurd h3 (not_lt.mpr hall.le)
  refine ⟨hlt, ?_⟩
  have hidx : greaterCountRow r (cumsumRow probsRow) < idxRow.length := by rw [hlen]; exact hlt
  rw [List.get?_eq_get hidx]
  rfl

/-- Witness for C1: a concrete greedy call returns the arg-max ids. -/
theorem greedy_fast_path_argmax_witness :
    outTokens (forward ⟨false, false, true, 0, false, true⟩ (fun _ => 1) (fun _ => 0)
      [[1, 5, 3]] [(1, 1/2, 7)] false) = some (argmax [[1, 5, 3]]) ∧
    argmax [[1, 5, 3]] = [1] :=
  ⟨((greedy_fast_path_argmax ⟨false, false, true, 0, false, true⟩ (fun _ => 1) (fun _ => 0)
      [[1, 5, 3]] [(1, 1/2, 7)] false).2 (by decide)).1, by decide⟩

/-!
The remaining witnesses evaluate the embedding on concrete rational inputs.
`Rat.add`/`Rat.mul`/`Rat.inv`/`Rat.sub` are `@[irreducible]` in the library,
which blocks kernel evaluation inside `decide`; this section restores their
semireducibility locally so that concrete runs of the sampler reduce.
-/

section ConcreteEvaluation

attribute [local semireducible] Rat.mul Rat.inv Rat.add Rat.sub

set_option maxRecDepth 40000

/-- Witness for the amended C2: equal singleton-free lengths give `ok`, and a
concrete length mismatch yields the ShapeMismatch error. -/
theorem prepare_params_ok_iff_lengths_eq_witness :
    prepare_sampling_params 2 (ParamVal.tensor1d [1, 2]) (ParamVal.tensor1d [3])
        (ParamVal.tensor1d [4]) = Except.error "sampling params shapes do not match" :=
  (prepare_params_ok_iff_lengths_eq 2 (ParamVal.tensor1d [1, 2]) (ParamVal.tensor1d [3])
    (ParamVal.tensor1d [4])).2 (by decide)

/-- Witness for C4: in a concrete top-p run whose threshold masks the second
position, the first position survives with a non-sentinel value. -/
theorem topP_first_position_unmasked_witness :
    ∃ v ∈ ([(2 : ℚ), IGNORED_LOGITS_VALUE] : List ℚ), v ≠ IGNORED_LOGITS_VALUE := by
  have h := topP_first_position_unmasked (fun _ => 1) [[2, 1]] [1/100]
    ([2, 1], [2, IGNORED_LOGITS_VALUE]) (by decide)
  exact h.2 (by decide) (by decide)

/-- Witness for C5: a concrete deterministic sampling-path call; uniform final
probabilities [1/2, 1/2], cumulative [1/2, 1], draw 1/2, count 0, and the
sorted-index row [1, 0] yields the single token id 1. -/
theorem sampling_path_count_gather_witness :
    forward ⟨true, false, true, 0, false, true⟩ (fun _ => 1) (fun _ => 0)
      [[1, 2]] [(2, 1, 1)] false = SampleOut.tokens [1] := by
  have h := (sampling_path_count_gather ⟨true, false, true, 0, false, true⟩ (fun _ => 1)
    (fun _ => 0) [[1, 2]] [(2, 1, 1)] (by decide) rfl (by decide)).1
  rw [h]
  decide

/-- Witness for C6: a concrete deterministic sampler has draw value 1/2 and
gives the same result under two different random streams. -/
theorem deterministic_fixed_draw_witness :
    rand_selector ⟨true, false, true, 0, false, true⟩ (fun _ => 0) 0 = 1/2 ∧
    forward ⟨true, false, true, 0, false, true⟩ (fun _ => 1) (fun _ => 0)
        [[1, 2]] [(2, 1, 1)] false =
      forward ⟨true, false, true, 0, false, true⟩ (fun _ => 1) (fun _ => 7)
        [[1, 2]] [(2, 1, 1)] false := by
  have h := deterministic_fixed_draw ⟨true, false, true, 0, false, true⟩ (fun _ => 1)
    [[1, 2]] [(2, 1, 1)] false rfl
  exact ⟨h.1 (fun _ => 0) 0, h.2 (fun _ => 0) (fun _ => 7)⟩

/-- Claim C7 counterexample: the clamp uses the single global minimum of the
whole batch's cumulative tensor, so with a peaked first row (top probability
100/101) next to a flat second row (global minimum cumulative value 1/10),
row 0's clamped threshold max(1/10, 1/5) = 1/5 stays strictly below every
cumulative value of row 0 — that row's threshold is still unsatisfiable. The
stand-in exponential `fun v => max v (1/100)` is strictly positive on every
input, as a true exponential is. -/
theorem clamp_global_min_counterexample :
    (clampedTopP (fun v => max v (1/100))
        [[900, 1, 1, 1, 1, 1, 1, 1, 1, 1], [1, 1, 1, 1, 1, 1, 1, 1, 1, 1]]
        [2/10, 2/10]).getD 0 0 = 1/5 ∧
    tensorMin [cumsumRow (softmaxRow (fun v => max v (1/100))
        [900, 1, 1, 1, 1, 1, 1, 1, 1, 1])] = 100/101 ∧
    ((1 : ℚ)/5 < 100/101) := by
  decide

/-- Witness for the amended C7: a concrete clamped threshold is at least the
global minimum of the cumulative tensor. -/
theorem clampedTopP_ge_global_min_witness :
    tensorMin (cumsum (soft_max (fun _ => (1 : ℚ)) [[2, 1]])) ≤
      (clampedTopP (fun _ => (1 : ℚ)) [[2, 1]] [1/2]).getD 0 0 :=
  (clampedTopP_ge_global_min (fun _ => (1 : ℚ)) [[2, 1]] [1/2]).1 _ (by decide)

/-- Witness for C8: concrete singleton inputs broadcast to three identical
rows in (top_k, top_p, temperature) order. -/
theorem prepare_params_singleton_broadcast_witness :
    prepare_sampling_params 3 (ParamVal.scalar 5) (ParamVal.scalar 1) (ParamVal.tensor1d [2]) =
      Except.ok [(5, 1, 2), (5, 1, 2), (5, 1, 2)] := by
  have h := (prepare_params_singleton_broadcast 3 (ParamVal.scalar 5) (ParamVal.scalar 1)
    (ParamVal.tensor1d [2]) rfl rfl rfl).1
  rw [h]
  decide

/-- Witness for C9: a concrete medusa call returns the full sorted index
tensor of both rows. -/
theorem medusa_returns_sorted_indices_witness :
    forward ⟨true, false, true, 0, true, true⟩ (fun _ => 1) (fun _ => 0)
        [[1, 5, 3], [9, 8, 7]] [(2, 1, 1), (2, 1, 1)] false =
      SampleOut.candidateIndices [[1, 2, 0], [0, 1, 2]] := by
  have h := (medusa_returns_sorted_indices ⟨true, false, true, 0, true, true⟩ (fun _ => 1)
    (fun _ => 0) [[1, 5, 3], [9, 8, 7]] [(2, 1, 1), (2, 1, 1)] false 3 (by decide) rfl
    (by decide) (fun hgk => absurd hgk (by decide))).1
  rw [h]
  decide

/-- Witness for C10: probabilities [1/2, 1/2] with draw 1/2 give count 0,
in bounds for the 2-entry index row [3, 4]. -/
theorem multinomial_count_in_bounds_witness :
    greaterCountRow (1/2) (cumsumRow [1/2, 1/2]) < 2 ∧
    (([3, 4] : List Nat).get? (greaterCountRow (1/2) (cumsumRow [1/2, 1/2]))).isSome = true :=
  multinomial_count_in_bounds [1/2, 1/2] (1/2) [3, 4] (by decide) (by decide) (by decide)
    (by decide)

end ConcreteEvaluation

end NxDISampling
